import Mathlib

/-!
Shallow embedding of the `doc-parser` repository (files `xml_wrapper.py` and
`doc_parser.py`), together with proofs settling the behavioural claims about
its XML-cursor navigation engine and its per-document part cache.

Modelling conventions:
* An XML document tree (as produced by `xml.dom.minidom.parseString`) is a
  list of root-level nodes (`rootChildren`, the `childNodes` of the Document
  node) of typed nodes: `element tag children` or `text value`.
* The cursor's mutable `self.node` field is a `Option (List Nat)`:
  `none` models Python `None` (minidom attribute accesses such as
  `firstChild` yield `None`, without raising, when the target is absent);
  `some []` is the Document node itself; `some (i :: p)` is the node reached
  by indexing child lists starting from the Document's children.
* Every Python method that returns `self` on success and `None` on a caught
  exception is modelled as `XMLWrapper → XMLWrapper × Bool`: the state after
  the call plus whether the call returned `self` (`true`) or `None`
  (`false`).  In all `false` paths of the source, the exception occurs
  before any assignment to `self.node`, so the returned state equals the
  input state there.
* Regular-expression search (`re.compile(pattern).search`) is abstracted as
  a matcher `String → Bool` applied to a node's literal text.
-/

/-- A parsed XML node: minidom's `ELEMENT_NODE` (tag name plus ordered
children) or `TEXT_NODE` (literal value). -/
inductive XNode where
  | element (tag : String) (children : List XNode)
  | text (value : String)

/-- `childNodes` of a node: elements carry their list, text nodes are
childless (minidom's `Childless` mixin gives them an empty node list). -/
def childrenOf : XNode → List XNode
  | .element _ cs => cs
  | .text _ => []

/-- Resolve a non-empty path to the node it denotes, by repeatedly indexing
child lists starting from the Document's child list `ns`.  The empty path
(the Document node itself) and dangling paths resolve to `none`. -/
def nodeAt? : List XNode → List Nat → Option XNode
  | _, [] => none
  | ns, [i] => ns[i]?
  | ns, i :: j :: p =>
    match ns[i]? with
    | none => none
    | some n => nodeAt? (childrenOf n) (j :: p)

/-- The `childNodes` list of the node a path denotes (`some ns` for the
Document node, i.e. the empty path). -/
def childListAt : List XNode → List Nat → Option (List XNode)
  | ns, [] => some ns
  | ns, i :: p =>
    match ns[i]? with
    | none => none
    | some n => childListAt (childrenOf n) p

/-- A path is a position the Python object can actually hold: the Document
node or a resolvable node of the tree. -/
def validPos (ns : List XNode) (p : List Nat) : Bool :=
  p.isEmpty || (nodeAt? ns p).isSome

/-- Python list indexing `cs[nth]` with an `int` index: negative indices
count from the end; out-of-range raises `IndexError` (modelled as `none`). -/
def pyIndex (len : Nat) (nth : Int) : Option Nat :=
  if nth < 0 then
    if 0 ≤ (len : Int) + nth then some ((len : Int) + nth).toNat else none
  else
    if nth < (len : Int) then some nth.toNat else none

/-- Lookup in the tag-substitution table (`self.special_tags[tag]` guarded by
`tag in self.special_tags`), modelled as an association list. -/
def lookupTag (st : List (String × String)) (t : String) : Option String :=
  (st.find? (fun e => e.1 == t)).map (fun e => e.2)

mutual
/-- `get_text_value` restricted to a child list: the loop body of
`XMLWrapper.get_text_value` iterating `start_node.childNodes`. -/
def aggChildren (st : List (String × String)) : List XNode → String
  | [] => ""
  | n :: rest => aggChild st n ++ aggChildren st rest

/-- The contribution of one child in `XMLWrapper.get_text_value`: a text
node contributes `n.nodeValue`; an element whose tag is in the substitution
table contributes the replacement; any other element is recursed into. -/
def aggChild (st : List (String × String)) : XNode → String
  | .text v => v
  | .element t cs =>
    match lookupTag st t with
    | some r => r
    | none => aggChildren st cs
end

/-- `Element.getElementsByTagName` / `Document.getElementsByTagName` helper
(`_get_elements_by_tagName_helper`): the preorder, document-order list of
descendant elements of the forest `ns` whose tag equals `tag` (or all
elements for the wildcard `"*"`), paired with their paths.  `base` is the
path of the node whose `childNodes` is `ns`; `i` is the index of the first
node of `ns` within that child list. -/
def elemsUnder (tag : String) (base : List Nat) (i : Nat) : List XNode → List (List Nat × XNode)
  | [] => []
  | .text v :: rest => elemsUnder tag base (i + 1) rest
  | .element t cs :: rest =>
    (if tag = "*" ∨ t = tag then [(base ++ [i], XNode.element t cs)] else [])
      ++ elemsUnder tag (base ++ [i]) 0 cs
      ++ elemsUnder tag base (i + 1) rest

/-- The loop of `XMLWrapper.set_text_node_by_pattern` over the candidate
elements: if a candidate has no first child, `n.firstChild.nodeType` raises
`AttributeError` on `None` and the method's blanket `except` returns `None`
(modelled `none`); if the first child is a text node whose value matches,
the candidate's path is returned; otherwise the scan continues.  Exhaustion
falls off the end of the method, which also returns `None`. -/
def scanTextCands (m : String → Bool) : List (List Nat × XNode) → Option (List Nat)
  | [] => none
  | (p, n) :: rest =>
    match (childrenOf n).head? with
    | none => none
    | some (.text v) => if m v then some p else scanTextCands m rest
    | some (.element _ _) => scanTextCands m rest

/-- The ancestor walk of `XMLWrapper.set_ancestor_node_by_tag`: starting at
the current node's path, repeatedly move to the parent; the Document node's
`parentNode` is `None` (loop ends, `None` returned) and the Document has no
`tagName`, so reaching it as an ancestor raises `AttributeError` and the
method returns `None`.  Element ancestors are compared against `tag`. -/
def findAncestor (ns : List XNode) (tag : String) : List Nat → Option (List Nat)
  | [] => none
  | i :: p =>
    if ((i :: p).dropLast).isEmpty then none
    else
      match nodeAt? ns ((i :: p).dropLast) with
      | some (.element t _) =>
        if t = tag then some ((i :: p).dropLast)
        else findAncestor ns tag ((i :: p).dropLast)
      | _ => none
termination_by l => l.length
decreasing_by
  simp [List.length_dropLast]

/-- The proper ancestors of a path that are nodes of the tree proper (the
Document node excluded), nearest first: the non-empty proper prefixes in
decreasing length. -/
def ancestorsOf : List Nat → List (List Nat)
  | [] => []
  | i :: p =>
    if ((i :: p).dropLast).isEmpty then []
    else (i :: p).dropLast :: ancestorsOf ((i :: p).dropLast)
termination_by l => l.length
decreasing_by
  simp [List.length_dropLast]

/-- Does the node at path `q` carry tag `tag`?  (`n.tagName == tag_name` on
an element; the Document node and text nodes have no matching `tagName`.) -/
def pathTagIs (ns : List XNode) (tag : String) (q : List Nat) : Bool :=
  match nodeAt? ns q with
  | some (.element t _) => t == tag
  | _ => false

/-- Does `n.firstChild` exist, have `nodeType == TEXT_NODE`, and a
`nodeValue` matching the pattern? -/
def matchesFirstText (m : String → Bool) (n : XNode) : Bool :=
  match (childrenOf n).head? with
  | some (.text v) => m v
  | _ => false

/-- Plain document-order concatenation of the contributions of a child
list, used to state the aggregation claims. -/
def docOrderConcat (f : XNode → String) : List XNode → String
  | [] => ""
  | n :: rest => f n ++ docOrderConcat f rest

/-- The state of a Python `XMLWrapper` object (`xml_wrapper.py`).

The `special_tags` field: Modelled from the spec: `XMLWrapper.get_text_value`
reads `self.special_tags`, but no code in the repository ever assigns this
attribute; per the spec it is treated as injectable configuration, "a
mapping tag name → replacement string, default empty". -/
structure XMLWrapper where
  rootChildren : List XNode
  text_node_tag : String
  special_tags : List (String × String)
  node : Option (List Nat)

namespace XMLWrapper

/-- `XMLWrapper.reset_to_root`: `self.node = self.minidom` (the Document
node); the `try` body cannot raise, so it always returns `self`. -/
def reset_to_root (w : XMLWrapper) : XMLWrapper × Bool :=
  ({ w with node := some [] }, true)

/-- `XMLWrapper.set_firstChild`: `self.node = self.node.firstChild`.
minidom's `firstChild` is `None` for a childless node (no exception), so the
method then succeeds with `self.node = None`; only `None.firstChild`
(current node already `None`) raises, returning `None` with no
assignment. -/
def set_firstChild (w : XMLWrapper) : XMLWrapper × Bool :=
  match w.node with
  | none => (w, false)
  | some p =>
    match childListAt w.rootChildren p with
    | none => (w, false)
    | some cs =>
      ({ w with node := if cs.isEmpty then none else some (p ++ [0]) }, true)

/-- `XMLWrapper.set_lastChild`: `self.node = self.node.lastChild`, same
convention as `set_firstChild`. -/
def set_lastChild (w : XMLWrapper) : XMLWrapper × Bool :=
  match w.node with
  | none => (w, false)
  | some p =>
    match childListAt w.rootChildren p with
    | none => (w, false)
    | some cs =>
      ({ w with node := if cs.isEmpty then none else some (p ++ [cs.length - 1]) }, true)

/-- `XMLWrapper.set_childNode`: `self.node = self.node.childNodes[nth]`;
`IndexError` (out of Python range) is caught and returns `None` with the
position undisturbed. -/
def set_childNode (w : XMLWrapper) (nth : Int) : XMLWrapper × Bool :=
  match w.node with
  | none => (w, false)
  | some p =>
    match childListAt w.rootChildren p with
    | none => (w, false)
    | some cs =>
      match pyIndex cs.length nth with
      | some j => ({ w with node := some (p ++ [j]) }, true)
      | none => (w, false)

/-- `XMLWrapper.set_parentNode`: `self.node = self.node.parentNode`.  The
Document node's `parentNode` is `None`, so at the root the method succeeds
with `self.node = None`. -/
def set_parentNode (w : XMLWrapper) : XMLWrapper × Bool :=
  match w.node with
  | none => (w, false)
  | some p =>
    ({ w with node := if p.isEmpty then none else some p.dropLast }, true)

/-- `XMLWrapper.set_nextSibling`: `self.node = self.node.nextSibling`; the
sibling link is `None` past the end of the parent's child list (and for the
Document node), in which case the method succeeds with `self.node = None`. -/
def set_nextSibling (w : XMLWrapper) : XMLWrapper × Bool :=
  match w.node with
  | none => (w, false)
  | some [] => ({ w with node := none }, true)
  | some p =>
    match childListAt w.rootChildren p.dropLast with
    | none => (w, false)
    | some sibs =>
      match p.getLast? with
      | none => (w, false)
      | some i =>
        ({ w with node := if i + 1 < sibs.length then some (p.dropLast ++ [i + 1]) else none },
         true)

/-- `XMLWrapper.set_previousSibling`: symmetric to `set_nextSibling`. -/
def set_previousSibling (w : XMLWrapper) : XMLWrapper × Bool :=
  match w.node with
  | none => (w, false)
  | some [] => ({ w with node := none }, true)
  | some p =>
    match p.getLast? with
    | none => (w, false)
    | some i =>
      ({ w with node := if 0 < i then some (p.dropLast ++ [i - 1]) else none }, true)

/-- The candidate list `self.node.getElementsByTagName(self.text_node_tag)`
of `set_text_node_by_pattern`: `none` when the access raises (`self.node` is
`None`, or a text node, which has no `getElementsByTagName`). -/
def textCandidates (w : XMLWrapper) : Option (List (List Nat × XNode)) :=
  match w.node with
  | none => none
  | some [] => some (elemsUnder w.text_node_tag [] 0 w.rootChildren)
  | some p =>
    match nodeAt? w.rootChildren p with
    | some (.element _ cs) => some (elemsUnder w.text_node_tag p 0 cs)
    | _ => none

/-- `XMLWrapper.set_text_node_by_pattern`, with the compiled regex's
unanchored `search` abstracted as the matcher `m`. -/
def set_text_node_by_pattern (w : XMLWrapper) (m : String → Bool) : XMLWrapper × Bool :=
  match textCandidates w with
  | none => (w, false)
  | some cands =>
    match scanTextCands m cands with
    | some q => ({ w with node := some q }, true)
    | none => (w, false)

/-- `XMLWrapper.set_ancestor_node_by_tag`. -/
def set_ancestor_node_by_tag (w : XMLWrapper) (tag : String) : XMLWrapper × Bool :=
  match w.node with
  | none => (w, false)
  | some p =>
    match findAncestor w.rootChildren tag p with
    | some q => ({ w with node := some q }, true)
    | none => (w, false)

/-- `XMLWrapper.get_text_value` called with no argument (`start_node` is
then `self.node`; minidom nodes are always truthy, so the `if not
start_node` default only fires for the method's own `None` default).  The
method never assigns `self.node`, so the state component is the input
state; the value component is `None` only when `self.node` is `None`
(`None.childNodes` raises). -/
def get_text_value (w : XMLWrapper) : XMLWrapper × Option String :=
  (w,
   match w.node with
   | none => none
   | some [] => some (aggChildren w.special_tags w.rootChildren)
   | some p =>
     match nodeAt? w.rootChildren p with
     | some n => some (aggChildren w.special_tags (childrenOf n))
     | none => none)

/-- The cursor state invariant: the current node is Python `None` or an
actual position of the tree (the Document node or a resolvable node). -/
def stateOK (w : XMLWrapper) : Bool :=
  match w.node with
  | none => true
  | some p => validPos w.rootChildren p

end XMLWrapper

/-- One cursor-valued operation of `XMLWrapper` (the operations of spec
§4.1), with its parameters. -/
inductive CursorOp where
  | firstChild
  | lastChild
  | childNode (nth : Int)
  | parentNode
  | nextSibling
  | previousSibling
  | resetToRoot
  | textNodeByPattern (m : String → Bool)
  | ancestorByTag (tag : String)

/-- Dispatch a `CursorOp` to the corresponding `XMLWrapper` method. -/
def applyOp (op : CursorOp) (w : XMLWrapper) : XMLWrapper × Bool :=
  match op with
  | .firstChild => w.set_firstChild
  | .lastChild => w.set_lastChild
  | .childNode nth => w.set_childNode nth
  | .parentNode => w.set_parentNode
  | .nextSibling => w.set_nextSibling
  | .previousSibling => w.set_previousSibling
  | .resetToRoot => w.reset_to_root
  | .textNodeByPattern m => w.set_text_node_by_pattern m
  | .ancestorByTag tag => w.set_ancestor_node_by_tag tag

/-- What re-opening the zip archive and reading-then-parsing one named part
yields at the moment `GenericParser.xml_file` runs (`doc_parser.py` opens
the archive anew on every raw-bytes read): either the archive itself cannot
be opened, or a per-name result where `none` means the read raised
(`KeyError`, name gone) or `minidom.parseString` raised (malformed bytes),
and `some forest` is the parsed Document's child list. -/
inductive ArchiveNow where
  | unreadable
  | readable (readParse : String → Option (List XNode))

/-- The state of a Python `GenericParser` object (`doc_parser.py`): the text
tag and the `self._xml_files` cache mapping each enumerated part name to
`None` (unparsed sentinel) or a cached `XMLWrapper`. -/
structure GenericParser where
  text_node_tag : String
  xmlFiles : List (String × Option XMLWrapper)

/-- `self._xml_files[name]`: `none` models the `KeyError` for a name outside
the enumerated key universe. -/
def cacheLookup (l : List (String × Option XMLWrapper)) (name : String) :
    Option (Option XMLWrapper) :=
  (l.find? (fun e => e.1 == name)).map (fun e => e.2)

/-- `self._xml_files[name] = v` for a name already in the key universe. -/
def cacheUpdate (l : List (String × Option XMLWrapper)) (name : String)
    (v : Option XMLWrapper) : List (String × Option XMLWrapper) :=
  l.map (fun e => if e.1 == name then (e.1, v) else e)

/-- `x.endswith(".xml")` on the characters of the name. -/
def endsWithXml (s : String) : Bool :=
  ".xml".data.isSuffixOf s.data

/-- `GenericParser.__init__`'s cache construction: enumerate the archive's
names with the `.xml` extension and record each as unparsed. -/
def GenericParser.ofNames (names : List String) : GenericParser :=
  { text_node_tag := "w:t"
    xmlFiles := (names.filter endsWithXml).map (fun s => (s, none)) }

/-- `XMLWrapper.__init__` as invoked by `GenericParser.xml_file`:
`XMLWrapper(z.read(name), self.text_node_tag)` parses the bytes and resets
to root; no `special_tags` attribute is assigned (spec: default empty). -/
def mkWrapper (forest : List XNode) (tag : String) : XMLWrapper :=
  { rootChildren := forest, text_node_tag := tag, special_tags := [], node := some [] }

/-- `GenericParser.xml_file`: look the name up in the cache (a `KeyError`
for an unknown name is caught before the archive is ever opened); on the
unparsed sentinel, re-open the archive, read and parse the part and store
the wrapper (no store happens if any of that raises); finally return the
cached wrapper after forcibly applying `reset_to_root`. -/
def xml_file (g : GenericParser) (arch : ArchiveNow) (name : String) :
    GenericParser × Option XMLWrapper :=
  match cacheLookup g.xmlFiles name with
  | none => (g, none)
  | some (some w) =>
    let w' := { w with node := some ([] : List Nat) }
    ({ g with xmlFiles := cacheUpdate g.xmlFiles name (some w') }, some w')
  | some none =>
    match arch with
    | .unreadable => (g, none)
    | .readable readParse =>
      match readParse name with
      | none => (g, none)
      | some forest =>
        let w := mkWrapper forest g.text_node_tag
        ({ g with xmlFiles := cacheUpdate g.xmlFiles name (some w) }, some w)

/-! ### Concrete sample documents and parser states used by the witnesses -/

/-- A tree whose only element is childless. -/
def soloTree : List XNode := [.element "a" []]

/-- Cursor positioned at the childless element of `soloTree`. -/
def soloW : XMLWrapper := ⟨soloTree, "w:t", [], some [0]⟩

/-- Cursor positioned at the Document node of `soloTree`. -/
def soloRootW : XMLWrapper := ⟨soloTree, "w:t", [], some []⟩

/-- A tree containing a childless text-tag element placed before a matching
text-tag element. -/
def abortTree : List XNode :=
  [.element "r" [.element "w:t" [], .element "w:t" [.text "hello"]]]

/-- Cursor at the Document node of `abortTree`. -/
def abortW : XMLWrapper := ⟨abortTree, "w:t", [], some []⟩

/-- Sample tree for the aggregation claims: a text child, a substitutable
element child and a nested element child under one parent. -/
def aggTree : List XNode :=
  [.element "r" [.text "A", .element "br" [], .element "b" [.text "B"]]]

/-- Cursor at the parent element of `aggTree`, with a substitution table
mapping the `br` tag to a newline. -/
def aggW : XMLWrapper := ⟨aggTree, "w:t", [("br", "\n")], some [0]⟩

/-- Cursor at the element of `aggTree` whose only child is one text node. -/
def aggW2 : XMLWrapper := ⟨aggTree, "w:t", [], some [0, 2]⟩

/-- Nested tree for the ancestor-search claim, cursor three levels deep. -/
def ancW : XMLWrapper :=
  ⟨[.element "a" [.element "b" [.element "c" []]]], "w:t", [], some [0, 0, 0]⟩

/-- Text-node scan example with no childless text-tag candidates. -/
def okW : XMLWrapper :=
  ⟨[.element "r" [.element "w:t" [.text "abc"], .element "w:t" [.text "hello"]]],
   "w:t", [], some []⟩

/-- The candidate list of `okW` for tag `w:t`. -/
def okCands : List (List Nat × XNode) :=
  [([0, 0], .element "w:t" [.text "abc"]), ([0, 1], .element "w:t" [.text "hello"])]

/-- A cached cursor left at a non-root position by an earlier traversal. -/
def cachedW : XMLWrapper := ⟨[.element "a" [.text "x"]], "w:t", [], some [0, 0]⟩

/-- Parser state whose cache already holds `cachedW` for `a.xml`. -/
def gCached : GenericParser := ⟨"w:t", [("a.xml", some cachedW)]⟩

/-- Parser state produced by enumerating two archive names, only one of
which has the `.xml` extension. -/
def gEnum : GenericParser := GenericParser.ofNames ["a.xml", "b.txt"]

/-- Parser state with one enumerated, still unparsed part. -/
def gUnparsed : GenericParser := ⟨"w:t", [("a.xml", none)]⟩

/-! ### Structural lemmas about paths, resolution and the helper scans -/

theorem getElem?_isSome_iff {α : Type} {l : List α} {i : Nat} :
    (l[i]?).isSome = true ↔ i < l.length := by
  constructor
  · intro h
    cases Nat.lt_or_ge i l.length with
    | inl hl => exact hl
    | inr hg => rw [List.getElem?_eq_none hg] at h; simp at h
  · intro h
    simp [List.getElem?_eq_getElem h]

theorem nodeAt?_append (i : Nat) :
    ∀ (p : List Nat) (ns : List XNode),
      nodeAt? ns (p ++ [i]) = (childListAt ns p).bind (fun cs => cs[i]?) := by
  intro p
  induction p with
  | nil => intro ns; simp [nodeAt?, childListAt]
  | cons j p ih =>
    intro ns
    cases p with
    | nil => cases h : ns[j]? <;> simp [nodeAt?, childListAt, h]
    | cons k p' =>
      cases h : ns[j]? with
      | none => simp [nodeAt?, childListAt, h]
      | some n =>
        have h1 : nodeAt? ns ((j :: k :: p') ++ [i]) = nodeAt? (childrenOf n) ((k :: p') ++ [i]) := by
          simp [nodeAt?, h]
        have h2 : childListAt ns (j :: k :: p') = childListAt (childrenOf n) (k :: p') := by
          simp [childListAt, h]
        rw [h1, h2, ih (childrenOf n)]

theorem childListAt_eq :
    ∀ (p : List Nat) (ns : List XNode), p ≠ [] →
      childListAt ns p = (nodeAt? ns p).map childrenOf := by
  intro p
  induction p with
  | nil => intro ns h; exact absurd rfl h
  | cons j p ih =>
    intro ns _
    cases p with
    | nil => cases h : ns[j]? <;> simp [nodeAt?, childListAt, h]
    | cons k p' =>
      cases h : ns[j]? with
      | none => simp [nodeAt?, childListAt, h]
      | some n =>
        simp only [nodeAt?, childListAt, h]
        exact ih (childrenOf n) (by simp)

theorem validPos_childList {ns : List XNode} {p : List Nat}
    (h : validPos ns p = true) : ∃ cs, childListAt ns p = some cs := by
  cases p with
  | nil => exact ⟨ns, rfl⟩
  | cons j q =>
    have hs : (nodeAt? ns (j :: q)).isSome = true := by
      simpa [validPos] using h
    obtain ⟨n, hn⟩ := Option.isSome_iff_exists.mp hs
    refine ⟨childrenOf n, ?_⟩
    rw [childListAt_eq (j :: q) ns (by simp), hn]
    rfl

theorem validPos_append {ns cs : List XNode} {p : List Nat} {i : Nat}
    (h : childListAt ns p = some cs) (hi : i < cs.length) :
    validPos ns (p ++ [i]) = true := by
  have hn : nodeAt? ns (p ++ [i]) = cs[i]? := by
    rw [nodeAt?_append, h]
    rfl
  simp [validPos, hn, List.getElem?_eq_getElem hi]

theorem valid_decomp {ns : List XNode} {p : List Nat} (hne : p ≠ [])
    (h : (nodeAt? ns p).isSome = true) :
    ∃ sibs i, childListAt ns p.dropLast = some sibs ∧
      p.getLast? = some i ∧ i < sibs.length := by
  obtain ⟨q, i, rfl⟩ : ∃ q i, p = q ++ [i] :=
    ⟨p.dropLast, p.getLast hne, (List.dropLast_append_getLast hne).symm⟩
  rw [nodeAt?_append] at h
  cases hcl : childListAt ns q with
  | none => rw [hcl] at h; simp at h
  | some sibs =>
    rw [hcl] at h
    refine ⟨sibs, i, ?_, ?_, ?_⟩
    · simpa [List.dropLast_concat] using hcl
    · simp
    · exact getElem?_isSome_iff.mp (by simpa using h)

theorem ancestor_is_element {ns : List XNode} {p : List Nat} (hne : p ≠ [])
    (hq : p.dropLast ≠ []) (h : (nodeAt? ns p).isSome = true) :
    ∃ t cs, nodeAt? ns p.dropLast = some (.element t cs) := by
  obtain ⟨sibs, i, hs, _, hlt⟩ := valid_decomp hne h
  rw [childListAt_eq p.dropLast ns hq] at hs
  cases hn : nodeAt? ns p.dropLast with
  | none => rw [hn] at hs; simp at hs
  | some n =>
    rw [hn] at hs
    cases n with
    | element t cs => exact ⟨t, cs, rfl⟩
    | text v =>
      simp [childrenOf] at hs
      subst hs
      simp at hlt

theorem pyIndex_lt {len : Nat} {nth : Int} {j : Nat}
    (h : pyIndex len nth = some j) : j < len := by
  unfold pyIndex at h
  split at h
  · split at h
    · simp at h; omega
    · simp at h
  · split at h
    · simp at h; omega
    · simp at h

theorem elemsUnder_sound (tag : String) (root : List XNode) :
    ∀ (base : List Nat) (i : Nat) (ns : List XNode),
      (∀ j n, ns[j]? = some n → nodeAt? root (base ++ [i + j]) = some n) →
      ∀ q m, (q, m) ∈ elemsUnder tag base i ns → nodeAt? root q = some m := by
  intro base i ns
  induction base, i, ns using elemsUnder.induct tag with
  | case1 base i =>
    intro _ q m hmem
    simp [elemsUnder] at hmem
  | case2 base i v rest ih =>
    intro H q m hmem
    rw [elemsUnder] at hmem
    refine ih ?_ q m hmem
    intro j n hj
    have := H (j + 1) n (by simpa using hj)
    simpa [Nat.add_assoc, Nat.add_comm 1 j] using this
  | case3 base i t cs rest ih1 ih2 =>
    intro H q m hmem
    have hself : nodeAt? root (base ++ [i]) = some (.element t cs) := by
      simpa using H 0 (.element t cs) (by simp)
    rw [elemsUnder] at hmem
    simp only [List.mem_append] at hmem
    rcases hmem with (hmem | hmem) | hmem
    · rcases Decidable.em (tag = "*" ∨ t = tag) with hc | hc
      · rw [if_pos hc] at hmem
        simp at hmem
        obtain ⟨rfl, rfl⟩ := hmem
        exact hself
      · rw [if_neg hc] at hmem
        simp at hmem
    · refine ih1 ?_ q m hmem
      intro j n hj
      have hcl : childListAt root (base ++ [i]) = some cs := by
        rw [childListAt_eq (base ++ [i]) root (by simp), hself]
        rfl
      have hstep : nodeAt? root ((base ++ [i]) ++ [j]) = cs[j]? := by
        rw [nodeAt?_append, hcl]
        rfl
      simp only [Nat.zero_add]
      rw [hstep]
      exact hj
    · refine ih2 ?_ q m hmem
      intro j n hj
      have := H (j + 1) n (by simpa using hj)
      simpa [Nat.add_assoc, Nat.add_comm 1 j] using this

theorem textCandidates_sound {w : XMLWrapper} {cands : List (List Nat × XNode)}
    (h : w.textCandidates = some cands) :
    ∀ q n, (q, n) ∈ cands → nodeAt? w.rootChildren q = some n := by
  intro q n hmem
  cases hw : w.node with
  | none =>
    simp only [XMLWrapper.textCandidates, hw] at h
    exact Option.noConfusion h
  | some p =>
    cases p with
    | nil =>
      simp only [XMLWrapper.textCandidates, hw, Option.some.injEq] at h
      subst h
      refine elemsUnder_sound _ _ [] 0 _ ?_ q n hmem
      intro j nn hj
      simpa [nodeAt?] using hj
    | cons j q' =>
      simp only [XMLWrapper.textCandidates, hw] at h
      cases hn : nodeAt? w.rootChildren (j :: q') with
      | none => rw [hn] at h; simp at h
      | some nn =>
        rw [hn] at h
        cases nn with
        | text v => simp at h
        | element t cs =>
          simp only [Option.some.injEq] at h
          subst h
          refine elemsUnder_sound _ _ (j :: q') 0 cs ?_ q n hmem
          intro k nn hk
          have hcl : childListAt w.rootChildren (j :: q') = some cs := by
            rw [childListAt_eq (j :: q') w.rootChildren (by simp), hn]
            rfl
          have hstep : nodeAt? w.rootChildren ((j :: q') ++ [k]) = cs[k]? := by
            rw [nodeAt?_append, hcl]
            rfl
          simp only [Nat.zero_add]
          rw [hstep]
          exact hk

theorem scanTextCands_mem {m : String → Bool} :
    ∀ {l : List (List Nat × XNode)} {q : List Nat},
      scanTextCands m l = some q → ∃ n, (q, n) ∈ l := by
  intro l
  induction l with
  | nil => intro q h; simp [scanTextCands] at h
  | cons e rest ih =>
    intro q h
    obtain ⟨p, n⟩ := e
    cases hcn : (childrenOf n).head? with
    | none =>
      simp only [scanTextCands, hcn] at h
      exact Option.noConfusion h
    | some c =>
      cases c with
      | text v =>
        simp only [scanTextCands, hcn] at h
        by_cases hm : m v
        · rw [if_pos hm] at h
          cases h
          exact ⟨n, List.mem_cons_self _ _⟩
        · rw [if_neg hm] at h
          obtain ⟨n', hn'⟩ := ih h
          exact ⟨n', List.mem_cons_of_mem _ hn'⟩
      | element t cs =>
        simp only [scanTextCands, hcn] at h
        obtain ⟨n', hn'⟩ := ih h
        exact ⟨n', List.mem_cons_of_mem _ hn'⟩

theorem scanTextCands_eq (m : String → Bool) :
    ∀ l : List (List Nat × XNode),
      scanTextCands m l =
        (l.find? (fun e => matchesFirstText m e.2 || (childrenOf e.2).isEmpty)).bind
          (fun e => if (childrenOf e.2).isEmpty then none else some e.1) := by
  intro l
  induction l with
  | nil => rfl
  | cons e rest ih =>
    obtain ⟨p, n⟩ := e
    cases hcn : childrenOf n with
    | nil => simp [scanTextCands, List.find?_cons, matchesFirstText, hcn]
    | cons c cs' =>
      cases c with
      | text v =>
        by_cases hm : m v
        · simp [scanTextCands, List.find?_cons, matchesFirstText, hcn, hm]
        · simp [scanTextCands, List.find?_cons, matchesFirstText, hcn, hm, ih]
      | element t cs2 =>
        simp [scanTextCands, List.find?_cons, matchesFirstText, hcn, ih]

theorem findAncestor_eq_aux (ns : List XNode) (tag : String) :
    ∀ (k : Nat) (p : List Nat), p.length ≤ k → validPos ns p = true →
      findAncestor ns tag p = (ancestorsOf p).find? (pathTagIs ns tag) := by
  intro k
  induction k with
  | zero =>
    intro p hl _
    have hp : p = [] := List.length_eq_zero.mp (Nat.le_zero.mp hl)
    subst hp
    simp [findAncestor, ancestorsOf]
  | succ k ih =>
    intro p hl hv
    cases p with
    | nil => simp [findAncestor, ancestorsOf]
    | cons j q =>
      by_cases hq : ((j :: q).dropLast).isEmpty
      · simp [findAncestor, ancestorsOf, hq]
      · have hqne : (j :: q).dropLast ≠ [] := by
          simpa [List.isEmpty_iff] using hq
        have hvp : (nodeAt? ns (j :: q)).isSome = true := by
          simpa [validPos] using hv
        obtain ⟨t, cs, hel⟩ := ancestor_is_element (by simp) hqne hvp
        have hval' : validPos ns ((j :: q).dropLast) = true := by
          simp [validPos, hel]
        have hlen : ((j :: q).dropLast).length ≤ k := by
          simp only [List.length_dropLast, List.length_cons] at *
          omega
        have hanc : ancestorsOf (j :: q) =
            (j :: q).dropLast :: ancestorsOf ((j :: q).dropLast) := by
          simp [ancestorsOf, hq]
        by_cases htag : t = tag
        · subst htag
          have hpos : pathTagIs ns t ((j :: q).dropLast) = true := by
            simp [pathTagIs, hel]
          rw [show findAncestor ns t (j :: q) = some ((j :: q).dropLast) from by
                simp [findAncestor, hq, hel],
              hanc, List.find?_cons_of_pos _ hpos]
        · have hneg : ¬ (pathTagIs ns tag ((j :: q).dropLast) = true) := by
            simp [pathTagIs, hel, htag]
          rw [show findAncestor ns tag (j :: q) = findAncestor ns tag ((j :: q).dropLast) from by
                simp [findAncestor, hq, hel, htag],
              hanc, List.find?_cons_of_neg _ hneg]
          exact ih _ hlen hval'

theorem findAncestor_char (tag : String) {ns : List XNode} {p : List Nat}
    (hv : validPos ns p = true) :
    findAncestor ns tag p = (ancestorsOf p).find? (pathTagIs ns tag) :=
  findAncestor_eq_aux ns tag p.length p le_rfl hv

theorem aggChildren_eq_concat (st : List (String × String)) :
    ∀ cs : List XNode,
      aggChildren st cs =
        docOrderConcat (fun c =>
          match c with
          | .text v => v
          | .element t cs' =>
            match lookupTag st t with
            | some r => r
            | none => aggChildren st cs') cs := by
  intro cs
  induction cs with
  | nil => rfl
  | cons n rest ih =>
    cases n <;> simp [aggChildren, aggChild, docOrderConcat, ih]

theorem stateOK_some {w : XMLWrapper} {p : List Nat}
    (h : XMLWrapper.stateOK w = true) (hp : w.node = some p) :
    validPos w.rootChildren p = true := by
  simp only [XMLWrapper.stateOK, hp] at h
  exact h

/-! ### The claims -/

/-- C10: `get_text_value` (aggregate_text) never changes the cursor's
current node: whether it returns a string or fails, the state after the
call is exactly the state before the call (the method body never assigns
`self.node`). -/
theorem claim_C10_get_text_value_frame (w : XMLWrapper) :
    (w.get_text_value).1 = w := rfl

/-- C5: for a part name whose cache entry already holds a parsed cursor,
`xml_file` returns that cached cursor with `reset_to_root` forcibly
applied — positioned at the Document root — for every state of the archive
(so the part is not parsed again) and for every current-node position the
cached cursor was left in by an earlier traversal (so no mutation leaks
into the new fetch); the cache keeps the same underlying tree. -/
theorem claim_C5_cached_fetch_resets (g : GenericParser) (arch : ArchiveNow)
    (name : String) (w : XMLWrapper)
    (h : cacheLookup g.xmlFiles name = some (some w)) :
    xml_file g arch name =
      ({ g with xmlFiles := cacheUpdate g.xmlFiles name (some { w with node := some [] }) },
       some { w with node := some [] }) := by
  simp [xml_file, h]

/-- C5 witness: fetching the cached `a.xml` from `gCached` — whose cursor
was left at position `[0, 0]` — returns the cached cursor reset to the
Document root, even with the archive unreadable. -/
theorem claim_C5_cached_fetch_resets_witness :
    xml_file gCached ArchiveNow.unreadable "a.xml" =
      ({ gCached with
          xmlFiles := cacheUpdate gCached.xmlFiles "a.xml" (some { cachedW with node := some [] }) },
       some { cachedW with node := some [] }) :=
  claim_C5_cached_fetch_resets gCached ArchiveNow.unreadable "a.xml" cachedW rfl

/-- C6: a part name outside the enumerated key universe makes `xml_file`
fail identically for every state of the archive (the `KeyError` is raised
before the archive is opened, so no read is attempted), and each failure
mode — absent name, unreadable archive, bytes that fail to read or
parse — is reported through the same uniform `none` result with the parser
state unchanged. -/
theorem claim_C6_uniform_failure (g : GenericParser) (name : String) :
    (cacheLookup g.xmlFiles name = none → ∀ arch, xml_file g arch name = (g, none)) ∧
    (cacheLookup g.xmlFiles name = some none →
      xml_file g ArchiveNow.unreadable name = (g, none)) ∧
    (∀ readParse, cacheLookup g.xmlFiles name = some none → readParse name = none →
      xml_file g (ArchiveNow.readable readParse) name = (g, none)) := by
  refine ⟨?_, ?_, ?_⟩
  · intro h arch
    simp [xml_file, h]
  · intro h
    simp [xml_file, h]
  · intro rp h hr
    simp [xml_file, h, hr]

/-- C6 witness: on the parser built from names `a.xml` and `b.txt` (only
the former enumerated), requesting `b.txt` fails even though the archive
could serve it, and the unreadable-archive and unparseable-bytes failures
for `a.xml` produce the same `none` result. -/
theorem claim_C6_uniform_failure_witness :
    (xml_file gEnum (ArchiveNow.readable (fun _ => some [])) "b.txt" = (gEnum, none)) ∧
    (xml_file gEnum ArchiveNow.unreadable "a.xml" = (gEnum, none)) ∧
    (xml_file gEnum (ArchiveNow.readable (fun _ => none)) "a.xml" = (gEnum, none)) :=
  ⟨(claim_C6_uniform_failure gEnum "b.txt").1 rfl _,
   (claim_C6_uniform_failure gEnum "a.xml").2.1 rfl,
   (claim_C6_uniform_failure gEnum "a.xml").2.2 _ rfl rfl⟩

/-- C9: when the cache entry for an enumerated name is still the unparsed
sentinel and the read or parse fails (archive unreadable, or the part's
bytes yield no tree), `xml_file` stores nothing — the parser state is
returned unchanged, the entry still unparsed — and a subsequent call
attempts the read and parse again, succeeding if the archive now serves
the part. -/
theorem claim_C9_no_cache_on_error (g : GenericParser) (name : String)
    (h : cacheLookup g.xmlFiles name = some none) :
    (xml_file g ArchiveNow.unreadable name = (g, none)) ∧
    (∀ readParse, readParse name = none →
      xml_file g (ArchiveNow.readable readParse) name = (g, none)) ∧
    (∀ readParse forest, readParse name = some forest →
      xml_file g (ArchiveNow.readable readParse) name =
        ({ g with
            xmlFiles := cacheUpdate g.xmlFiles name (some (mkWrapper forest g.text_node_tag)) },
         some (mkWrapper forest g.text_node_tag))) := by
  refine ⟨?_, ?_, ?_⟩
  · simp [xml_file, h]
  · intro rp hr
    simp [xml_file, h, hr]
  · intro rp forest hr
    simp [xml_file, h, hr]

/-- C9 witness: two failed fetches of the unparsed `a.xml` leave
`gUnparsed` unchanged, and a retry against a working archive parses and
caches the part. -/
theorem claim_C9_no_cache_on_error_witness :
    (xml_file gUnparsed ArchiveNow.unreadable "a.xml" = (gUnparsed, none)) ∧
    (xml_file gUnparsed (ArchiveNow.readable (fun _ => none)) "a.xml" = (gUnparsed, none)) ∧
    (xml_file gUnparsed (ArchiveNow.readable (fun _ => some soloTree)) "a.xml" =
      ({ gUnparsed with
          xmlFiles := cacheUpdate gUnparsed.xmlFiles "a.xml" (some (mkWrapper soloTree gUnparsed.text_node_tag)) },
       some (mkWrapper soloTree gUnparsed.text_node_tag))) := by
  have h := claim_C9_no_cache_on_error gUnparsed "a.xml" rfl
  exact ⟨h.1, h.2.1 _ rfl, h.2.2 _ soloTree rfl⟩

/-- C1: on a node with children, `get_text_value` returns the document-order
concatenation in which a text child contributes its literal value, an
element child whose tag appears in the substitution table contributes the
table's replacement string instead of being descended into, and any other
element child contributes its own recursively aggregated text. -/
theorem claim_C1_aggregation (w : XMLWrapper) (p : List Nat) (cs : List XNode)
    (h1 : w.node = some p) (h2 : childListAt w.rootChildren p = some cs)
    (h3 : cs ≠ []) :
    (w.get_text_value).2 =
      some (docOrderConcat (fun c =>
        match c with
        | .text v => v
        | .element t cs' =>
          match lookupTag w.special_tags t with
          | some r => r
          | none => aggChildren w.special_tags cs') cs) := by
  rw [← aggChildren_eq_concat]
  cases p with
  | nil =>
    have hcs : cs = w.rootChildren := by
      simpa [childListAt] using h2.symm
    subst hcs
    simp [XMLWrapper.get_text_value, h1]
  | cons j q =>
    rw [childListAt_eq (j :: q) w.rootChildren (by simp)] at h2
    cases hn : nodeAt? w.rootChildren (j :: q) with
    | none =>
      rw [hn] at h2
      simp at h2
    | some n =>
      rw [hn] at h2
      simp only [Option.map_some', Option.some.injEq] at h2
      simp [XMLWrapper.get_text_value, h1, hn, h2]

/-- C1 witness: aggregating the parent of `aggTree` (text child `"A"`,
substitutable `br` child, nested element child with text `"B"`) under the
table mapping `br` to a newline yields the claimed concatenation, which
evaluates to `"A\nB"`. -/
theorem claim_C1_aggregation_witness :
    ((aggW.get_text_value).2 =
      some (docOrderConcat (fun c =>
        match c with
        | .text v => v
        | .element t cs' =>
          match lookupTag aggW.special_tags t with
          | some r => r
          | none => aggChildren aggW.special_tags cs')
        [XNode.text "A", XNode.element "br" [], XNode.element "b" [XNode.text "B"]])) ∧
    (aggW.get_text_value).2 = some "A\nB" := by
  refine ⟨claim_C1_aggregation aggW [0]
    [XNode.text "A", XNode.element "br" [], XNode.element "b" [XNode.text "B"]]
    rfl rfl (by simp), ?_⟩
  simp [XMLWrapper.get_text_value, aggW, aggTree, nodeAt?, childrenOf,
        aggChildren, aggChild, lookupTag, List.find?]

/-- C8: `get_text_value` on a node with no children succeeds with the empty
string (absence of children is not an error), and on an element whose only
child is one literal text node it returns exactly that literal value. -/
theorem claim_C8_empty_and_single (w : XMLWrapper) (p : List Nat)
    (hp : w.node = some p) :
    (∀ cs, childListAt w.rootChildren p = some cs → cs = [] →
      (w.get_text_value).2 = some "") ∧
    (∀ t v, nodeAt? w.rootChildren p = some (.element t [.text v]) →
      (w.get_text_value).2 = some v) := by
  constructor
  · intro cs hcl hcs
    subst hcs
    cases p with
    | nil =>
      have hr : w.rootChildren = [] := by
        simpa [childListAt] using hcl
      simp [XMLWrapper.get_text_value, hp, hr, aggChildren]
    | cons j q =>
      rw [childListAt_eq (j :: q) w.rootChildren (by simp)] at hcl
      cases hn : nodeAt? w.rootChildren (j :: q) with
      | none =>
        rw [hn] at hcl
        simp at hcl
      | some n =>
        rw [hn] at hcl
        simp only [Option.map_some', Option.some.injEq] at hcl
        simp [XMLWrapper.get_text_value, hp, hn, hcl, aggChildren]
  · intro t v hel
    cases p with
    | nil => simp [nodeAt?] at hel
    | cons j q =>
      simp [XMLWrapper.get_text_value, hp, hel, aggChildren, aggChild, childrenOf]

/-- C8 witness: the childless element of `soloTree` aggregates to `""`, and
the element of `aggTree` whose only child is the text node `"B"` aggregates
to exactly `"B"`. -/
theorem claim_C8_empty_and_single_witness :
    ((soloW.get_text_value).2 = some "") ∧
    ((aggW2.get_text_value).2 = some "B") :=
  ⟨(claim_C8_empty_and_single soloW [0] rfl).1 [] rfl rfl,
   (claim_C8_empty_and_single aggW2 [0, 2] rfl).2 "b" "B" rfl⟩

/-- C7: `set_ancestor_node_by_tag` walks strictly upward and positions the
cursor at the first ancestor — the one reachable in the fewest upward
moves, i.e. the first entry of the nearest-first ancestor list — whose tag
name equals the given tag; it fails exactly when no ancestor up to and
including the root element matches (the Document node, which has no tag
name, never matches). -/
theorem claim_C7_ancestor_search (w : XMLWrapper) (tag : String) (p : List Nat)
    (hOK : XMLWrapper.stateOK w = true) (hp : w.node = some p) :
    w.set_ancestor_node_by_tag tag =
      match (ancestorsOf p).find? (pathTagIs w.rootChildren tag) with
      | some q => ({ w with node := some q }, true)
      | none => (w, false) := by
  have hv := stateOK_some hOK hp
  have hchar := findAncestor_char tag hv
  simp only [XMLWrapper.set_ancestor_node_by_tag, hp, hchar]

/-- C7 witness: from the node three levels deep in `ancW`, searching for
tag `a` lands on the outermost element (path `[0]`), the nearest matching
ancestor. -/
theorem claim_C7_ancestor_search_witness :
    XMLWrapper.stateOK ancW = true ∧
    ancW.set_ancestor_node_by_tag "a" = ({ ancW with node := some [0] }, true) := by
  refine ⟨rfl, ?_⟩
  have h := claim_C7_ancestor_search ancW "a" [0, 0, 0] rfl rfl
  rw [h]
  simp [ancestorsOf, pathTagIs, ancW, nodeAt?, childrenOf, List.dropLast]

/-- C4 (corrected): the claim as stated is false — see the counterexample —
because a text-tag element with no first child makes the scan's
`None.nodeType` access raise, aborting the whole call.  Amended claim:
`set_text_node_by_pattern` scans the text-tag elements under the current
node in document order, positions the cursor at the first one whose first
child is a text node matching the pattern, and fails either when the scan
is exhausted with no match or as soon as it meets a text-tag element with
no child at all; the scan retains no state across calls (it is a pure
function of the tree, position and pattern). -/
theorem claim_C4_amended_scan (w : XMLWrapper) (m : String → Bool)
    (cands : List (List Nat × XNode)) (h : w.textCandidates = some cands) :
    w.set_text_node_by_pattern m =
      match cands.find? (fun e => matchesFirstText m e.2 || (childrenOf e.2).isEmpty) with
      | some e =>
        if (childrenOf e.2).isEmpty then (w, false) else ({ w with node := some e.1 }, true)
      | none => (w, false) := by
  simp only [XMLWrapper.set_text_node_by_pattern, h]
  rw [scanTextCands_eq]
  cases hf : cands.find? (fun e => matchesFirstText m e.2 || (childrenOf e.2).isEmpty) with
  | none => rfl
  | some e =>
    by_cases he : (childrenOf e.2).isEmpty <;> simp [he]

/-- C4 counterexample: in `abortTree` a childless `w:t` element precedes a
`w:t` element whose literal text matches the pattern; the claim says the
scan must position the cursor at that later match (failing only on
exhaustion), but the call returns the failure value with the cursor
undisturbed. -/
theorem claim_C4_counterexample :
    abortW.set_text_node_by_pattern (fun s => s == "hello") = (abortW, false) ∧
    nodeAt? abortW.rootChildren [0, 1] = some (.element "w:t" [.text "hello"]) ∧
    ((fun s => s == "hello") "hello") = true := by
  refine ⟨?_, rfl, rfl⟩
  simp [XMLWrapper.set_text_node_by_pattern, XMLWrapper.textCandidates, abortW, abortTree,
        elemsUnder, scanTextCands, childrenOf]

/-- C4 witness: on `okW`, whose two `w:t` candidates both have children,
the scan positions the cursor at the first candidate whose text matches
the pattern, the element at path `[0, 1]`. -/
theorem claim_C4_amended_scan_witness :
    XMLWrapper.textCandidates okW = some okCands ∧
    okW.set_text_node_by_pattern (fun s => s == "hello") =
      ({ okW with node := some [0, 1] }, true) := by
  constructor
  · simp [XMLWrapper.textCandidates, okW, okCands, elemsUnder, childrenOf]
  · have h := claim_C4_amended_scan okW (fun s => s == "hello") okCands
      (by simp [XMLWrapper.textCandidates, okW, okCands, elemsUnder, childrenOf])
    rw [h]
    simp [okCands, matchesFirstText, childrenOf]

/-- C2 (corrected): the claim as stated is false — see the counterexample —
because a movement whose target attribute is minidom `None` (childless
node, root's parent, sibling-list edge) returns the success value with the
current node set to the null sentinel, which is not a node of the tree.
Amended claim: after any cursor operation on a well-formed cursor, the tree
is unchanged and the current node is again either the null sentinel or a
valid position of the same tree; whenever an operation returns the failure
value it leaves the whole cursor state, including the prior position,
undisturbed. -/
theorem claim_C2_amended_invariant (w : XMLWrapper) (op : CursorOp)
    (h : XMLWrapper.stateOK w = true) :
    (applyOp op w).1.rootChildren = w.rootChildren ∧
    XMLWrapper.stateOK (applyOp op w).1 = true ∧
    ((applyOp op w).2 = false → (applyOp op w).1 = w) := by
  cases op with
  | firstChild =>
    cases hn : w.node with
    | none => simp [applyOp, XMLWrapper.set_firstChild, hn, h]
    | some p =>
      obtain ⟨cs, hcl⟩ := validPos_childList (stateOK_some h hn)
      by_cases he : cs.isEmpty
      · simp [applyOp, XMLWrapper.set_firstChild, hn, hcl, he, XMLWrapper.stateOK]
      · have hlen : 0 < cs.length := by
          cases cs
          · simp at he
          · simp
        have hv := validPos_append hcl hlen
        simp [applyOp, XMLWrapper.set_firstChild, hn, hcl, he, XMLWrapper.stateOK, hv]
  | lastChild =>
    cases hn : w.node with
    | none => simp [applyOp, XMLWrapper.set_lastChild, hn, h]
    | some p =>
      obtain ⟨cs, hcl⟩ := validPos_childList (stateOK_some h hn)
      by_cases he : cs.isEmpty
      · simp [applyOp, XMLWrapper.set_lastChild, hn, hcl, he, XMLWrapper.stateOK]
      · have hlen : 0 < cs.length := by
          cases cs
          · simp at he
          · simp
        have hv := validPos_append hcl (Nat.sub_lt hlen Nat.one_pos)
        simp [applyOp, XMLWrapper.set_lastChild, hn, hcl, he, XMLWrapper.stateOK, hv]
  | childNode nth =>
    cases hn : w.node with
    | none => simp [applyOp, XMLWrapper.set_childNode, hn, h]
    | some p =>
      obtain ⟨cs, hcl⟩ := validPos_childList (stateOK_some h hn)
      cases hpi : pyIndex cs.length nth with
      | none => simp [applyOp, XMLWrapper.set_childNode, hn, hcl, hpi, h]
      | some j =>
        have hv := validPos_append hcl (pyIndex_lt hpi)
        simp [applyOp, XMLWrapper.set_childNode, hn, hcl, hpi, XMLWrapper.stateOK, hv]
  | parentNode =>
    cases hn : w.node with
    | none => simp [applyOp, XMLWrapper.set_parentNode, hn, h]
    | some p =>
      by_cases hp : p.isEmpty
      · simp [applyOp, XMLWrapper.set_parentNode, hn, hp, XMLWrapper.stateOK]
      · have hpne : p ≠ [] := by
          simpa [List.isEmpty_iff] using hp
        have hvs : (nodeAt? w.rootChildren p).isSome = true := by
          simpa [validPos, hp, List.isEmpty_iff, hpne] using stateOK_some h hn
        have hvd : validPos w.rootChildren p.dropLast = true := by
          by_cases hdl : p.dropLast.isEmpty
          · simp [validPos, hdl]
          · obtain ⟨t, cs, hel⟩ :=
              ancestor_is_element hpne (by simpa [List.isEmpty_iff] using hdl) hvs
            simp [validPos, hel]
        simp [applyOp, XMLWrapper.set_parentNode, hn, hp, XMLWrapper.stateOK, hvd]
  | nextSibling =>
    cases hn : w.node with
    | none => simp [applyOp, XMLWrapper.set_nextSibling, hn, h]
    | some p =>
      cases p with
      | nil => simp [applyOp, XMLWrapper.set_nextSibling, hn, XMLWrapper.stateOK]
      | cons j q =>
        have hvs : (nodeAt? w.rootChildren (j :: q)).isSome = true := by
          simpa [validPos] using stateOK_some h hn
        obtain ⟨sibs, i, hcl, hlast, hlt⟩ := valid_decomp (by simp) hvs
        by_cases hi : i + 1 < sibs.length
        · have hv := validPos_append hcl hi
          simp [applyOp, XMLWrapper.set_nextSibling, hn, hcl, hlast, hi,
                XMLWrapper.stateOK, hv]
        · simp [applyOp, XMLWrapper.set_nextSibling, hn, hcl, hlast, hi,
                XMLWrapper.stateOK]
  | previousSibling =>
    cases hn : w.node with
    | none => simp [applyOp, XMLWrapper.set_previousSibling, hn, h]
    | some p =>
      cases p with
      | nil => simp [applyOp, XMLWrapper.set_previousSibling, hn, XMLWrapper.stateOK]
      | cons j q =>
        have hvs : (nodeAt? w.rootChildren (j :: q)).isSome = true := by
          simpa [validPos] using stateOK_some h hn
        obtain ⟨sibs, i, hcl, hlast, hlt⟩ := valid_decomp (by simp) hvs
        by_cases hi : 0 < i
        · have hi1 : i - 1 < sibs.length := by omega
          have hv := validPos_append hcl hi1
          simp [applyOp, XMLWrapper.set_previousSibling, hn, hlast, hi,
                XMLWrapper.stateOK, hv]
        · simp [applyOp, XMLWrapper.set_previousSibling, hn, hlast, hi,
                XMLWrapper.stateOK]
  | resetToRoot =>
    simp [applyOp, XMLWrapper.reset_to_root, XMLWrapper.stateOK, validPos]
  | textNodeByPattern m =>
    cases hc : w.textCandidates with
    | none => simp [applyOp, XMLWrapper.set_text_node_by_pattern, hc, h]
    | some cands =>
      cases hs : scanTextCands m cands with
      | none => simp [applyOp, XMLWrapper.set_text_node_by_pattern, hc, hs, h]
      | some q =>
        obtain ⟨n, hmem⟩ := scanTextCands_mem hs
        have hq := textCandidates_sound hc q n hmem
        have hvq : validPos w.rootChildren q = true := by
          simp [validPos, hq]
        simp [applyOp, XMLWrapper.set_text_node_by_pattern, hc, hs,
              XMLWrapper.stateOK, hvq]
  | ancestorByTag tag =>
    cases hn : w.node with
    | none => simp [applyOp, XMLWrapper.set_ancestor_node_by_tag, hn, h]
    | some p =>
      have hv := stateOK_some h hn
      cases hf : findAncestor w.rootChildren tag p with
      | none => simp [applyOp, XMLWrapper.set_ancestor_node_by_tag, hn, hf, h]
      | some q =>
        have hchar := findAncestor_char tag hv
        rw [hf] at hchar
        have hptag : pathTagIs w.rootChildren tag q = true :=
          List.find?_some hchar.symm
        have hvq : validPos w.rootChildren q = true := by
          cases hqn : nodeAt? w.rootChildren q with
          | none => simp [pathTagIs, hqn] at hptag
          | some nn => simp [validPos, hqn]
        simp [applyOp, XMLWrapper.set_ancestor_node_by_tag, hn, hf,
              XMLWrapper.stateOK, hvq]

/-- C2 counterexample: on the cursor at the childless element of
`soloTree`, `set_firstChild` returns the success value (the chainable
object, not the failure value `None`), yet the resulting current node is
the null sentinel — not a node of the tree. -/
theorem claim_C2_counterexample :
    (soloW.set_firstChild).2 = true ∧ (soloW.set_firstChild).1.node = none := by
  constructor <;> rfl

/-- C2 witness: the cursor `soloW` is well-formed and applying
`first_child` to it preserves the tree, preserves well-formedness and obeys
the failure-frame property. -/
theorem claim_C2_amended_invariant_witness :
    XMLWrapper.stateOK soloW = true ∧
    ((applyOp CursorOp.firstChild soloW).1.rootChildren = soloW.rootChildren ∧
     XMLWrapper.stateOK (applyOp CursorOp.firstChild soloW).1 = true ∧
     ((applyOp CursorOp.firstChild soloW).2 = false →
       (applyOp CursorOp.firstChild soloW).1 = soloW)) :=
  ⟨rfl, claim_C2_amended_invariant soloW CursorOp.firstChild rfl⟩

/-- C3 (corrected): the claim as stated is false — see the counterexample —
because the movements whose target is absent succeed with the current node
set to the null sentinel instead of failing.  Amended claim: on a
well-formed cursor, `set_firstChild`, `set_lastChild`, `set_parentNode`,
`set_nextSibling` and `set_previousSibling` return the failure value
exactly when the current node is already the null sentinel, and
`set_childNode nth` fails exactly when the current node is null or `nth`
is outside the Python index range of the child list; a missing target with
a valid current node yields success with the current node set to null. -/
theorem claim_C3_amended_failure_conditions (w : XMLWrapper) (nth : Int)
    (h : XMLWrapper.stateOK w = true) :
    ((w.set_firstChild).2 = false ↔ w.node = none) ∧
    ((w.set_lastChild).2 = false ↔ w.node = none) ∧
    ((w.set_parentNode).2 = false ↔ w.node = none) ∧
    ((w.set_nextSibling).2 = false ↔ w.node = none) ∧
    ((w.set_previousSibling).2 = false ↔ w.node = none) ∧
    ((w.set_childNode nth).2 = false ↔
      (w.node = none ∨ ∃ p cs, w.node = some p ∧
        childListAt w.rootChildren p = some cs ∧ pyIndex cs.length nth = none)) := by
  cases hn : w.node with
  | none =>
    refine ⟨?_, ?_, ?_, ?_, ?_, ?_⟩ <;>
      simp [XMLWrapper.set_firstChild, XMLWrapper.set_lastChild, XMLWrapper.set_parentNode,
            XMLWrapper.set_nextSibling, XMLWrapper.set_previousSibling,
            XMLWrapper.set_childNode, hn]
  | some p =>
    obtain ⟨cs, hcl⟩ := validPos_childList (stateOK_some h hn)
    refine ⟨?_, ?_, ?_, ?_, ?_, ?_⟩
    · simp [XMLWrapper.set_firstChild, hn, hcl]
    · simp [XMLWrapper.set_lastChild, hn, hcl]
    · simp [XMLWrapper.set_parentNode, hn]
    · cases p with
      | nil => simp [XMLWrapper.set_nextSibling, hn]
      | cons j q =>
        have hvs : (nodeAt? w.rootChildren (j :: q)).isSome = true := by
          simpa [validPos] using stateOK_some h hn
        obtain ⟨sibs, i, hcl2, hlast, _⟩ := valid_decomp (by simp) hvs
        simp [XMLWrapper.set_nextSibling, hn, hcl2, hlast]
    · cases p with
      | nil => simp [XMLWrapper.set_previousSibling, hn]
      | cons j q =>
        have hlast : (j :: q).getLast? = some ((j :: q).getLast (by simp)) :=
          List.getLast?_eq_getLast _ (by simp)
        simp [XMLWrapper.set_previousSibling, hn, hlast]
    · cases hpi : pyIndex cs.length nth with
      | some jj =>
        have h2 : (w.set_childNode nth).2 = true := by
          simp [XMLWrapper.set_childNode, hn, hcl, hpi]
        have hrhs : ¬ ((some p : Option (List Nat)) = none ∨
            ∃ p' cs', (some p : Option (List Nat)) = some p' ∧
              childListAt w.rootChildren p' = some cs' ∧ pyIndex cs'.length nth = none) := by
          rintro (hno | ⟨p', cs', hp', hcl', hpi'⟩)
          · cases hno
          · injection hp' with hpp
            subst hpp
            rw [hcl] at hcl'
            injection hcl' with hcc
            subst hcc
            rw [hpi] at hpi'
            cases hpi'
        exact iff_of_false (by simp [h2]) hrhs
      | none =>
        have h2 : (w.set_childNode nth).2 = false := by
          simp [XMLWrapper.set_childNode, hn, hcl, hpi]
        exact iff_of_true h2 (Or.inr ⟨p, cs, rfl, hcl, hpi⟩)

/-- C3 counterexample: at the tree root (the Document node) the claim says
`parent` must fail, but `set_parentNode` returns the success value, with
the current node set to the null sentinel. -/
theorem claim_C3_counterexample :
    (soloRootW.set_parentNode).2 = true ∧ (soloRootW.set_parentNode).1.node = none := by
  constructor <;> rfl

/-- C3 witness: the failure-condition characterization instantiated on the
well-formed cursor `soloW` with child index 5. -/
theorem claim_C3_amended_failure_conditions_witness :
    XMLWrapper.stateOK soloW = true ∧
    (((soloW.set_firstChild).2 = false ↔ soloW.node = none) ∧
     ((soloW.set_lastChild).2 = false ↔ soloW.node = none) ∧
     ((soloW.set_parentNode).2 = false ↔ soloW.node = none) ∧
     ((soloW.set_nextSibling).2 = false ↔ soloW.node = none) ∧
     ((soloW.set_previousSibling).2 = false ↔ soloW.node = none) ∧
     ((soloW.set_childNode 5).2 = false ↔
       (soloW.node = none ∨ ∃ p cs, soloW.node = some p ∧
         childListAt soloW.rootChildren p = some cs ∧ pyIndex cs.length 5 = none))) :=
  ⟨rfl, claim_C3_amended_failure_conditions soloW 5 rfl⟩
